import Mathlib

/-!
Verification of the convergence-simulator logic of the Solow-with-human-capital
notebook.

The Cobb-Douglas transition maps (`kt_plus1_func`, `ht_plus1_func`), the CES
transition maps (`kt1`, `ht1`), and the sympy closed-form steady state
(`ktilstar`, `htilstar`) are embedded over `ℝ`, with `x ** y` translated as
real-exponent power `x ^ y` (`Real.rpow`).

The iteration loop shared verbatim by `interact_CD` and `interact_CES`
(trajectory lists seeded with the initial state and its image, then
`while i < 10000` with a convergence test on the last two list entries and an
`elif i == 9999` no-convergence exit) is embedded as the generic `loop`/`run`
over any linear ordered field, with the loop counter `i` of the source replaced
by the decreasing quantity `fuel = maxIter - i` (the source has
`maxIter = 10000`). `run` is executable on `ℚ`, so concrete trajectories can be
computed by `decide`.
-/

namespace Solow

/-- Result of the convergence loop: the source reports either
`Convergence archieved!` (and plots the trajectory) or
`No convergence archieved`; both outcomes carry the accumulated
trajectory lists (`k0cd_list`/`h0cd_list`, zipped here into one list of
pairs `(k, h)`). -/
inductive ConvergenceResult (α : Type) : Type
  | converged (traj : List (α × α)) : ConvergenceResult α
  | notConverged (traj : List (α × α)) : ConvergenceResult α
deriving DecidableEq

/-- The trajectory carried by a `ConvergenceResult` (either variant). -/
def trajOf {α : Type} : ConvergenceResult α → List (α × α)
  | ConvergenceResult.converged t => t
  | ConvergenceResult.notConverged t => t

/-- Outcome of `interact_CD` / `interact_CES`: either one of the displayed
parameter warnings (all modelled by the single tag `paramError`) or the
result of the iteration. -/
inductive SimOutcome (α : Type) : Type
  | paramError : SimOutcome α
  | simResult (r : Option (ConvergenceResult α)) : SimOutcome α

/-- The while-loop shared verbatim by `interact_CD` and `interact_CES`:

    while i < maxIter:
        if |h[-1]-h[-2]| < tol and |k[-1]-k[-2]| < tol: Converged; break
        elif i == maxIter - 1: NotConverged; break
        else: append the image of the last state; i += 1

`fuel` stands for `maxIter - i`, so `i < maxIter` is `fuel ≠ 0` and
`i == maxIter - 1` is `fuel = 1` (the `if fuel = 0` test below, under the
`fuel + 1` pattern). `p` and `q` are the last two states (`list[-2]`,
`list[-1]`), `hist` holds the earlier states most recent first, so the
chronological trajectory is `(q :: p :: hist).reverse`. The `none` of the
`fuel = 0` pattern is the fall-through of the `while` condition, where the
source would leave `result` unbound (unreachable for `maxIter ≥ 2`). -/
def loop {α : Type} [LinearOrderedField α] (f : α × α → α × α) (tol : α) :
    ℕ → α × α → α × α → List (α × α) → Option (ConvergenceResult α)
  | 0, _, _, _ => none
  | fuel + 1, p, q, hist =>
    if |q.2 - p.2| < tol ∧ |q.1 - p.1| < tol then
      some (ConvergenceResult.converged ((q :: p :: hist).reverse))
    else if fuel = 0 then
      some (ConvergenceResult.notConverged ((q :: p :: hist).reverse))
    else
      loop f tol fuel q (f q) (p :: hist)

/-- The simulator body after the parameter guards: the trajectory is seeded
with `x0` and `f x0` (the two `append`s before the loop in the source), and
the while-loop starts at `i = 1`, i.e. with fuel `maxIter - 1`. The source
instantiates `tol = 0.00001` and `maxIter = 10000`. -/
def run {α : Type} [LinearOrderedField α] (f : α × α → α × α) (x0 : α × α)
    (tol : α) (maxIter : ℕ) : Option (ConvergenceResult α) :=
  loop f tol (maxIter - 1) x0 (f x0) []

/-- The first `m` iterates `x0, f x0, …, f^[m-1] x0`: the untruncated
chronological trajectory of length `m`. -/
def orbitList {α : Type} (f : α × α → α × α) (x0 : α × α) (m : ℕ) :
    List (α × α) :=
  (List.range m).map (fun j => f^[j] x0)

theorem orbitList_length {α : Type} (f : α × α → α × α) (x0 : α × α) (m : ℕ) :
    (orbitList f x0 m).length = m := by
  simp [orbitList]

theorem orbitList_succ {α : Type} (f : α × α → α × α) (x0 : α × α) (m : ℕ) :
    orbitList f x0 (m + 1) = orbitList f x0 m ++ [f^[m] x0] := by
  simp [orbitList, List.range_succ]

theorem orbitList_reverse_succ {α : Type} (f : α × α → α × α) (x0 : α × α)
    (m : ℕ) :
    (orbitList f x0 (m + 1)).reverse = f^[m] x0 :: (orbitList f x0 m).reverse := by
  simp [orbitList_succ]

theorem orbit_two_step {α : Type} (f : α × α → α × α) (x0 : α × α) (m : ℕ) :
    (f^[m + 1] x0 :: f^[m] x0 :: (orbitList f x0 m).reverse).reverse
      = orbitList f x0 (m + 1 + 1) := by
  simp [orbitList_succ]

/-- For `fuel ≥ 1` the loop always breaks with a result. -/
theorem loop_total {α : Type} [LinearOrderedField α] (f : α × α → α × α)
    (tol : α) :
    ∀ fuel, 1 ≤ fuel → ∀ p q hist, ∃ r, loop f tol fuel p q hist = some r := by
  intro fuel
  induction fuel with
  | zero => intro h; exact absurd h (by omega)
  | succ k ih =>
    intro _ p q hist
    by_cases hcond : |q.2 - p.2| < tol ∧ |q.1 - p.1| < tol
    · exact ⟨_, by rw [loop, if_pos hcond]⟩
    · by_cases hk : k = 0
      · exact ⟨_, by rw [loop, if_neg hcond, if_pos hk]⟩
      · obtain ⟨r, hr⟩ := ih (by omega) q (f q) (p :: hist)
        exact ⟨r, by rw [loop, if_neg hcond, if_neg hk, hr]⟩

/-- Starting from a prefix of the orbit of `x0`, the loop's result trajectory
is exactly a longer prefix of the same orbit (no truncation), with at least
two and at most `m + 2 + fuel` states. -/
theorem loop_shape {α : Type} [LinearOrderedField α] (f : α × α → α × α)
    (tol : α) (x0 : α × α) :
    ∀ fuel m r,
      loop f tol fuel (f^[m] x0) (f^[m + 1] x0) ((orbitList f x0 m).reverse)
        = some r →
      ∃ L, m + 2 ≤ L ∧ L ≤ m + 2 + fuel ∧ trajOf r = orbitList f x0 L := by
  intro fuel
  induction fuel with
  | zero => intro m r h; rw [loop] at h; exact absurd h (by simp)
  | succ k ih =>
    intro m r h
    rw [loop] at h
    by_cases hcond : |(f^[m + 1] x0).2 - (f^[m] x0).2| < tol ∧
        |(f^[m + 1] x0).1 - (f^[m] x0).1| < tol
    · rw [if_pos hcond] at h
      refine ⟨m + 1 + 1, by omega, by omega, ?_⟩
      cases h
      simpa [trajOf] using orbit_two_step f x0 m
    · rw [if_neg hcond] at h
      by_cases hk : k = 0
      · rw [if_pos hk] at h
        refine ⟨m + 1 + 1, by omega, by omega, ?_⟩
        cases h
        simpa [trajOf] using orbit_two_step f x0 m
      · rw [if_neg hk] at h
        rw [← Function.iterate_succ_apply' f (m + 1) x0,
          ← orbitList_reverse_succ] at h
        obtain ⟨L, hL1, hL2, hL3⟩ := ih (m + 1) r h
        exact ⟨L, by omega, by omega, hL3⟩

/-- `run`-level version of `loop_shape`: any produced result's trajectory is
an orbit prefix of length between `2` and `maxIter + 1`. -/
theorem run_shape {α : Type} [LinearOrderedField α] (f : α × α → α × α)
    (x0 : α × α) (tol : α) (M : ℕ) (r : ConvergenceResult α)
    (h : run f x0 tol M = some r) :
    ∃ L, 2 ≤ L ∧ L ≤ M + 1 ∧ trajOf r = orbitList f x0 L := by
  have hM : 1 ≤ M := by
    rcases Nat.eq_zero_or_pos M with h0 | h1
    · rw [run, h0] at h
      rw [loop] at h
      exact absurd h (by simp)
    · exact h1
  have h' : loop f tol (M - 1) (f^[0] x0) (f^[0 + 1] x0)
      ((orbitList f x0 0).reverse) = some r := by
    simpa [orbitList, Function.iterate_one] using h
  obtain ⟨L, hL1, hL2, hL3⟩ := loop_shape f tol x0 (M - 1) 0 r h'
  exact ⟨L, by omega, by omega, hL3⟩

/-- When the loop reports convergence, the trajectory ends with a pair of
states whose coordinates both moved by less than `tol` (the conjunction
tested by the source's `if`). -/
theorem loop_conv_last {α : Type} [LinearOrderedField α] (f : α × α → α × α)
    (tol : α) :
    ∀ fuel p q hist t,
      loop f tol fuel p q hist = some (ConvergenceResult.converged t) →
      ∃ l p' q', t = l ++ [p', q'] ∧ |q'.2 - p'.2| < tol ∧ |q'.1 - p'.1| < tol := by
  intro fuel
  induction fuel with
  | zero => intro p q hist t h; rw [loop] at h; exact absurd h (by simp)
  | succ k ih =>
    intro p q hist t h
    rw [loop] at h
    by_cases hcond : |q.2 - p.2| < tol ∧ |q.1 - p.1| < tol
    · rw [if_pos hcond] at h
      refine ⟨hist.reverse, p, q, ?_, hcond.1, hcond.2⟩
      have := h
      simp only [Option.some.injEq, ConvergenceResult.converged.injEq] at this
      rw [← this]
      simp
    · rw [if_neg hcond] at h
      by_cases hk : k = 0
      · rw [if_pos hk] at h
        exact absurd h (by simp)
      · rw [if_neg hk] at h
        exact ih q (f q) (p :: hist) t h

/-- The relation `failed to converge between consecutive states`, in
chronological orientation: `a` is the earlier state, `b` the later one. -/
def stepFails {α : Type} [LinearOrderedField α] (tol : α) (a b : α × α) :
    Prop :=
  ¬(|b.2 - a.2| < tol ∧ |b.1 - a.1| < tol)

/-- When the loop reports no convergence, every consecutive pair of the
trajectory failed the tolerance test: the full, untruncated history of a run
in which the test never passed. -/
theorem loop_notConv_chain {α : Type} [LinearOrderedField α]
    (f : α × α → α × α) (tol : α) :
    ∀ fuel p q hist t,
      List.Chain' (flip (stepFails tol)) (p :: hist) →
      loop f tol fuel p q hist = some (ConvergenceResult.notConverged t) →
      List.Chain' (stepFails tol) t := by
  intro fuel
  induction fuel with
  | zero => intro p q hist t _ h; rw [loop] at h; exact absurd h (by simp)
  | succ k ih =>
    intro p q hist t hinv h
    rw [loop] at h
    by_cases hcond : |q.2 - p.2| < tol ∧ |q.1 - p.1| < tol
    · rw [if_pos hcond] at h
      exact absurd h (by simp)
    · rw [if_neg hcond] at h
      have hchain : List.Chain' (flip (stepFails tol)) (q :: p :: hist) :=
        List.chain'_cons.mpr ⟨hcond, hinv⟩
      by_cases hk : k = 0
      · rw [if_pos hk] at h
        have ht : t = (q :: p :: hist).reverse := by
          simp only [Option.some.injEq, ConvergenceResult.notConverged.injEq] at h
          exact h.symm
        rw [ht]
        exact List.chain'_reverse.mpr hchain
      · rw [if_neg hk] at h
        exact ih q (f q) (p :: hist) t hchain h

/-- Lower bound: the loop only ever appends, so a produced trajectory has at
least the two seed states plus everything already accumulated. -/
theorem loop_len_lb {α : Type} [LinearOrderedField α] (f : α × α → α × α)
    (tol : α) :
    ∀ fuel p q hist r,
      loop f tol fuel p q hist = some r →
      hist.length + 2 ≤ (trajOf r).length := by
  intro fuel
  induction fuel with
  | zero => intro p q hist r h; rw [loop] at h; exact absurd h (by simp)
  | succ k ih =>
    intro p q hist r h
    rw [loop] at h
    by_cases hcond : |q.2 - p.2| < tol ∧ |q.1 - p.1| < tol
    · rw [if_pos hcond] at h
      cases h
      simp [trajOf]
    · rw [if_neg hcond] at h
      by_cases hk : k = 0
      · rw [if_pos hk] at h
        cases h
        simp [trajOf]
      · rw [if_neg hk] at h
        have := ih q (f q) (p :: hist) r h
        simp only [List.length_cons] at this
        omega

/-- Tightening the tolerance can only delay the convergence break, so the
produced trajectory never gets shorter. -/
theorem loop_mono {α : Type} [LinearOrderedField α] (f : α × α → α × α)
    (tol1 tol2 : α) (htol : tol2 ≤ tol1) :
    ∀ fuel p q hist r1 r2,
      loop f tol1 fuel p q hist = some r1 →
      loop f tol2 fuel p q hist = some r2 →
      (trajOf r1).length ≤ (trajOf r2).length := by
  intro fuel
  induction fuel with
  | zero => intro p q hist r1 r2 h1 _; rw [loop] at h1; exact absurd h1 (by simp)
  | succ k ih =>
    intro p q hist r1 r2 h1 h2
    rw [loop] at h1 h2
    by_cases hc2 : |q.2 - p.2| < tol2 ∧ |q.1 - p.1| < tol2
    · have hc1 : |q.2 - p.2| < tol1 ∧ |q.1 - p.1| < tol1 :=
        ⟨lt_of_lt_of_le hc2.1 htol, lt_of_lt_of_le hc2.2 htol⟩
      rw [if_pos hc1] at h1
      rw [if_pos hc2] at h2
      cases h1; cases h2; simp [trajOf]
    · rw [if_neg hc2] at h2
      by_cases hk : k = 0
      · rw [if_pos hk] at h2
        cases h2
        by_cases hc1 : |q.2 - p.2| < tol1 ∧ |q.1 - p.1| < tol1
        · rw [if_pos hc1] at h1
          cases h1; simp [trajOf]
        · rw [if_neg hc1, if_pos hk] at h1
          cases h1; simp [trajOf]
      · rw [if_neg hk] at h2
        by_cases hc1 : |q.2 - p.2| < tol1 ∧ |q.1 - p.1| < tol1
        · rw [if_pos hc1] at h1
          cases h1
          have hlb := loop_len_lb f tol2 k q (f q) (p :: hist) r2 h2
          simp only [trajOf, List.length_reverse, List.length_cons] at hlb ⊢
          omega
        · rw [if_neg hc1, if_neg hk] at h1
          exact ih q (f q) (p :: hist) r1 r2 h1 h2

/-- Claim C4: for every transition map, initial state, tolerance and bound
`maxIter ≥ 2` (the source hard-codes `maxIter = 10000`), `run` terminates and
returns a `ConvergenceResult` (Converged or NotConverged) whose trajectory is
exactly the first `L` iterates of the map applied to the initial state — every
state computed, with no truncation — where `2 ≤ L ≤ maxIter + 1`. -/
theorem claim_C4 {α : Type} [LinearOrderedField α] (f : α × α → α × α)
    (x0 : α × α) (tol : α) (M : ℕ) (hM : 2 ≤ M) :
    ∃ r L, run f x0 tol M = some r ∧ 2 ≤ L ∧ L ≤ M + 1 ∧
      trajOf r = orbitList f x0 L := by
  obtain ⟨r, hr⟩ := loop_total f tol (M - 1) (by omega) x0 (f x0) []
  have hrun : run f x0 tol M = some r := hr
  obtain ⟨L, hL1, hL2, hL3⟩ := run_shape f x0 tol M r hrun
  exact ⟨r, L, hrun, hL1, hL2, hL3⟩

/-- Witness for C4 at a concrete halving map over `ℚ`. -/
theorem claim_C4_witness :
    2 ≤ 10 ∧
    ∃ r L, run (fun s : ℚ × ℚ => (s.1 / 2, s.2 / 2)) ((8 : ℚ), (8 : ℚ))
        (1 / 2) 10 = some r ∧ 2 ≤ L ∧ L ≤ 10 + 1 ∧
      trajOf r = orbitList (fun s : ℚ × ℚ => (s.1 / 2, s.2 / 2)) ((8 : ℚ), (8 : ℚ)) L :=
  ⟨by norm_num,
    claim_C4 (fun s : ℚ × ℚ => (s.1 / 2, s.2 / 2)) ((8 : ℚ), (8 : ℚ))
      (1 / 2) 10 (by norm_num)⟩

/-- Concrete one-step evaluation of `run` on `ℚ`: the identity map converges
immediately at tolerance 1. -/
theorem run_id_eval_one :
    run (fun s : ℚ × ℚ => s) ((0 : ℚ), (0 : ℚ)) 1 3
      = some (ConvergenceResult.converged [((0 : ℚ), (0 : ℚ)), ((0 : ℚ), (0 : ℚ))]) := by
  have h3 : (3 : ℕ) - 1 = 1 + 1 := rfl
  rw [run, h3, loop, if_pos ?_]
  · simp
  · constructor <;> norm_num

/-- Concrete one-step evaluation of `run` on `ℚ`: the identity map converges
immediately at tolerance 1/2 as well. -/
theorem run_id_eval_half :
    run (fun s : ℚ × ℚ => s) ((0 : ℚ), (0 : ℚ)) (1 / 2) 3
      = some (ConvergenceResult.converged [((0 : ℚ), (0 : ℚ)), ((0 : ℚ), (0 : ℚ))]) := by
  have h3 : (3 : ℕ) - 1 = 1 + 1 := rfl
  rw [run, h3, loop, if_pos ?_]
  · simp
  · constructor <;> norm_num

/-- Claim C6: the convergence report is sound for the AND-of-both-coordinates
test, and is never issued on the initial state alone. If `run` reports
Converged, the trajectory ends with two states (so at least one application of
the map happened) whose `h`- and `k`-moves are both below `tol`; if it reports
NotConverged, no consecutive pair anywhere in the trajectory had both
coordinates within `tol` — the test never passed, in particular a pair with
only one coordinate stabilized never triggers convergence. -/
theorem claim_C6 {α : Type} [LinearOrderedField α] (f : α × α → α × α)
    (x0 : α × α) (tol : α) (M : ℕ) :
    (∀ t, run f x0 tol M = some (ConvergenceResult.converged t) →
      ∃ l p q, t = l ++ [p, q] ∧ |q.2 - p.2| < tol ∧ |q.1 - p.1| < tol) ∧
    (∀ t, run f x0 tol M = some (ConvergenceResult.notConverged t) →
      List.Chain' (stepFails tol) t) := by
  constructor
  · intro t h
    exact loop_conv_last f tol (M - 1) x0 (f x0) [] t h
  · intro t h
    exact loop_notConv_chain f tol (M - 1) x0 (f x0) [] t
      (List.chain'_singleton x0) h

/-- Witness for C6: the identity map converges immediately, and the reported
trajectory indeed ends with a pair inside tolerance. -/
theorem claim_C6_witness :
    ∃ l p q, ([((0 : ℚ), (0 : ℚ)), ((0 : ℚ), (0 : ℚ))] : List (ℚ × ℚ))
        = l ++ [p, q] ∧ |q.2 - p.2| < (1 : ℚ) ∧ |q.1 - p.1| < (1 : ℚ) :=
  (claim_C6 (fun s : ℚ × ℚ => s) ((0 : ℚ), (0 : ℚ)) 1 3).1
    [((0 : ℚ), (0 : ℚ)), ((0 : ℚ), (0 : ℚ))] run_id_eval_one

/-- Claim C8: for the same map, initial state and iteration bound, a tighter
tolerance never yields a shorter trajectory. -/
theorem claim_C8 {α : Type} [LinearOrderedField α] (f : α × α → α × α)
    (x0 : α × α) (M : ℕ) (tol1 tol2 : α) (htol : tol2 ≤ tol1)
    (r1 r2 : ConvergenceResult α)
    (h1 : run f x0 tol1 M = some r1) (h2 : run f x0 tol2 M = some r2) :
    (trajOf r1).length ≤ (trajOf r2).length :=
  loop_mono f tol1 tol2 htol (M - 1) x0 (f x0) [] r1 r2 h1 h2

/-- Witness for C8: the identity run over `ℚ` at tolerance 1 versus the
tighter 1/2. -/
theorem claim_C8_witness :
    (trajOf (ConvergenceResult.converged
        [((0 : ℚ), (0 : ℚ)), ((0 : ℚ), (0 : ℚ))])).length ≤
      (trajOf (ConvergenceResult.converged
        [((0 : ℚ), (0 : ℚ)), ((0 : ℚ), (0 : ℚ))])).length :=
  claim_C8 (fun s : ℚ × ℚ => s) ((0 : ℚ), (0 : ℚ)) 3 1 (1 / 2)
    (by norm_num) _ _ run_id_eval_one run_id_eval_half

/-- Claim C10: if the very first application of the map moves both coordinates
by less than `tol`, the run converges at once with the two-state trajectory
`[x0, f x0]` — the minimum length 2 is attained and the map is applied
exactly once. -/
theorem claim_C10 {α : Type} [LinearOrderedField α] (f : α × α → α × α)
    (x0 : α × α) (tol : α) (M : ℕ) (hM : 2 ≤ M)
    (hh : |(f x0).2 - x0.2| < tol) (hk : |(f x0).1 - x0.1| < tol) :
    run f x0 tol M = some (ConvergenceResult.converged [x0, f x0]) := by
  obtain ⟨k, hkM⟩ : ∃ k, M - 1 = k + 1 := ⟨M - 2, by omega⟩
  rw [run, hkM, loop, if_pos ⟨hh, hk⟩]
  simp

/-- Witness for C10: a fixed point of the identity map over `ℚ`, run with the
source's bound of 10000 iterations, stops after one step. -/
theorem claim_C10_witness :
    run (fun s : ℚ × ℚ => s) ((1 : ℚ), (1 : ℚ)) (1 / 2) 10000
      = some (ConvergenceResult.converged [((1 : ℚ), (1 : ℚ)), ((1 : ℚ), (1 : ℚ))]) :=
  claim_C10 (fun s : ℚ × ℚ => s) ((1 : ℚ), (1 : ℚ)) (1 / 2) 10000
    (by norm_num) (by norm_num) (by norm_num)

noncomputable section

/-- Cobb-Douglas transition for physical capital per effective worker: the
source's sympy expression `ktplus1`, lambdified as `kt_plus1_func` with this
argument order. -/
def kt_plus1_func (tilkt tilht alpha n g sh sk delta phi : ℝ) : ℝ :=
  1 / ((1 + n) * (1 + g)) *
      (sk * tilkt ^ alpha * tilht ^ phi - (n + g + delta + n * g) * tilkt)
    + tilkt

/-- Cobb-Douglas transition for human capital per effective worker: the
source's `htplus1`, lambdified as `ht_plus1_func`. -/
def ht_plus1_func (tilkt tilht alpha n g sh sk delta phi : ℝ) : ℝ :=
  1 / ((1 + n) * (1 + g)) *
      (sh * tilkt ^ alpha * tilht ^ phi - (n + g + delta + n * g) * tilht)
    + tilht

/-- CES transition for physical capital per effective worker, exactly as the
source writes it: note that the trailing `+ tilkt` sits inside the outer
parenthesis, i.e. inside the `1/((1+n)(1+g))` factor. -/
def kt1 (tilkt tilht sk alpha phi sigma n g delta : ℝ) : ℝ :=
  1 / ((1 + n) * (1 + g)) *
    (sk * (alpha * tilkt ^ ((sigma - 1) / sigma)
          + phi * tilht ^ ((sigma - 1) / sigma)
          + (1 - alpha - phi)) ^ (sigma / (sigma - 1))
      - (n + g + delta + n * g) * tilkt + tilkt)

/-- CES transition for human capital per effective worker, exactly as the
source writes it: here the trailing `+ tilht` is outside the
`1/((1+n)(1+g))` factor. -/
def ht1 (tilkt tilht sh alpha phi sigma n g delta : ℝ) : ℝ :=
  1 / ((1 + n) * (1 + g)) *
      (sh * (alpha * tilkt ^ ((sigma - 1) / sigma)
            + phi * tilht ^ ((sigma - 1) / sigma)
            + (1 - alpha - phi)) ^ (sigma / (sigma - 1))
        - (n + g + delta + n * g) * tilht)
    + tilht

/-- The CES k-transition as the spec (and the notebook's own displayed
equation) states it; second definition written from the spec's words, for
comparison with the source's `kt1`: here the `+ k̃_t` lies outside the
`1/((1+n)(1+g))` factor. -/
def spec_kt1 (tilkt tilht sk alpha phi sigma n g delta : ℝ) : ℝ :=
  tilkt +
    (sk * (alpha * tilkt ^ ((sigma - 1) / sigma)
          + phi * tilht ^ ((sigma - 1) / sigma)
          + (1 - alpha - phi)) ^ (sigma / (sigma - 1))
      - (n + g + delta + n * g) * tilkt) / ((1 + n) * (1 + g))

/-- The sympy closed-form steady state of physical capital per effective
worker, as displayed by the source
(`ktilstar = s_H^(-φ/(φ+α-1)) · (s_K^(φ-1)·(δ+gn+g+n))^(1/(φ+α-1))`). -/
def ktilstar (sk sh alpha phi n g delta : ℝ) : ℝ :=
  sh ^ (-phi / (phi + alpha - 1)) *
    (sk ^ (phi - 1) * (delta + g * n + g + n)) ^ (1 / (phi + alpha - 1))

/-- The sympy closed-form steady state of human capital per effective worker,
as displayed by the source
(`htilstar = (ktilstar^(-α)·(δ+gn+g+n)/s_H)^(1/(φ-1))`). -/
def htilstar (sk sh alpha phi n g delta : ℝ) : ℝ :=
  (ktilstar sk sh alpha phi n g delta ^ (-alpha) * (delta + g * n + g + n) / sh) ^
    (1 / (phi - 1))

/-- The interactive Cobb-Douglas simulator: the source's guard chain (`sk+sh`,
`alpha+phi`, and the stability term `n+g+δ+ng`), then the shared loop on the
Cobb-Douglas maps with `tol = 0.00001` and 10000 iterations. -/
def interact_CD (k0 h0 sk sh alpha phi n g delta : ℝ) : SimOutcome ℝ :=
  if 1 ≤ sk + sh ∧ 1 ≤ alpha + phi then SimOutcome.paramError
  else if 1 ≤ alpha + phi then SimOutcome.paramError
  else if 1 ≤ sk + sh then SimOutcome.paramError
  else if n + g + delta + n * g ≤ 0 then SimOutcome.paramError
  else SimOutcome.simResult (run (fun s =>
    (kt_plus1_func s.1 s.2 alpha n g sh sk delta phi,
     ht_plus1_func s.1 s.2 alpha n g sh sk delta phi)) (k0, h0) (1 / 100000) 10000)

/-- The interactive CES simulator: same first three guards, but the stability
guard of the source tests only `n + g + delta == 0` (not `n+g+δ+ng ≤ 0`),
then the shared loop on the CES maps. -/
def interact_CES (k0 h0 sk sh alpha phi sigma n g delta : ℝ) : SimOutcome ℝ :=
  if 1 ≤ sk + sh ∧ 1 ≤ alpha + phi then SimOutcome.paramError
  else if 1 ≤ alpha + phi then SimOutcome.paramError
  else if 1 ≤ sk + sh then SimOutcome.paramError
  else if n + g + delta = 0 then SimOutcome.paramError
  else SimOutcome.simResult (run (fun s =>
    (kt1 s.1 s.2 sk alpha phi sigma n g delta,
     ht1 s.1 s.2 sh alpha phi sigma n g delta)) (k0, h0) (1 / 100000) 10000)

end

/-- Claim C7: for every state and parameters (in particular all positive
states and valid parameters), the Cobb-Douglas transition map returns
`k̃ + [s_K·k̃^α·h̃^φ − (n+g+δ+ng)·k̃]/[(1+n)(1+g)]` and the analogous
expression with `s_H` for `h̃`. -/
theorem claim_C7 (tilkt tilht alpha n g sh sk delta phi : ℝ) :
    kt_plus1_func tilkt tilht alpha n g sh sk delta phi
        = tilkt + (sk * tilkt ^ alpha * tilht ^ phi
            - (n + g + delta + n * g) * tilkt) / ((1 + n) * (1 + g)) ∧
    ht_plus1_func tilkt tilht alpha n g sh sk delta phi
        = tilht + (sh * tilkt ^ alpha * tilht ^ phi
            - (n + g + delta + n * g) * tilht) / ((1 + n) * (1 + g)) := by
  constructor
  · rw [kt_plus1_func]; ring
  · rw [ht_plus1_func]; ring

/-- Claim C1 (code bug): at the source's own default parameters
(`sk=0.4, α=φ=1/3, σ=1.5, n=g=0.02, δ=0.05`) and the state
`k̃ = h̃ = 1`, the source's `kt1` differs from the k-equation stated by the
spec (and by the notebook's own displayed CES transition equation) by
`101/2601 ≈ 0.0388`: `kt1` divides the trailing `+ k̃_t` by `(1+n)(1+g)`
instead of adding it outside the factor. -/
theorem claim_C1_gap :
    spec_kt1 1 1 (2 / 5) (1 / 3) (1 / 3) (3 / 2) (1 / 50) (1 / 50) (1 / 20)
        - kt1 1 1 (2 / 5) (1 / 3) (1 / 3) (3 / 2) (1 / 50) (1 / 50) (1 / 20)
      = 101 / 2601 := by
  rw [spec_kt1, kt1]
  norm_num [Real.one_rpow]

/-- Claim C5 (code bug): at `σ = 1.0001`, the standard calibration
(`α=φ=1/3, δ=0.05, g=n=0.02, s_K=0.1, s_H=0.15`) and the state
`k̃ = h̃ = 1`, the k-coordinate of the CES map differs from the k-coordinate
of the Cobb-Douglas map by `101/2601 ≈ 0.0388 ≥ 1/1000`, not by less than
`1e-3` as claimed — the same `kt1` parenthesis slip is responsible. -/
theorem claim_C5_gap :
    1 / 1000 ≤
      |kt1 1 1 (1 / 10) (1 / 3) (1 / 3) (10001 / 10000) (1 / 50) (1 / 50) (1 / 20)
        - kt_plus1_func 1 1 (1 / 3) (1 / 50) (1 / 50) (3 / 20) (1 / 10) (1 / 20) (1 / 3)| := by
  refine le_abs.mpr (Or.inr ?_)
  rw [kt1, kt_plus1_func]
  norm_num [Real.one_rpow]

/-- Claim C3 (amended): for every parameter set with `s_K + s_H ≥ 1` or
`α + φ ≥ 1`, both the Cobb-Douglas and the CES simulator fail fast with a
parameter error before any application of the transition map (no iteration,
no trajectory); every parameter set with the stability violation
`n+g+δ+ng ≤ 0` makes the Cobb-Douglas simulator fail fast likewise; but the
CES simulator's stability guard tests only `n+g+δ = 0`, so every CES
parameter set passing the savings and share guards with `n+g+δ+ng ≤ 0` and
`n+g+δ ≠ 0` proceeds to iterate, producing an iteration result instead of a
parameter error. -/
theorem claim_C3_amended (k0 h0 sk sh alpha phi sigma n g delta : ℝ) :
    ((1 ≤ sk + sh ∨ 1 ≤ alpha + phi) →
      interact_CD k0 h0 sk sh alpha phi n g delta = SimOutcome.paramError ∧
      interact_CES k0 h0 sk sh alpha phi sigma n g delta = SimOutcome.paramError) ∧
    (n + g + delta + n * g ≤ 0 →
      interact_CD k0 h0 sk sh alpha phi n g delta = SimOutcome.paramError) ∧
    (¬(1 ≤ sk + sh) → ¬(1 ≤ alpha + phi) → n + g + delta + n * g ≤ 0 →
      n + g + delta ≠ 0 →
      ∃ r, interact_CES k0 h0 sk sh alpha phi sigma n g delta
        = SimOutcome.simResult r) := by
  refine ⟨?_, ?_, ?_⟩
  · intro hviol
    rw [interact_CD, interact_CES]
    rcases hviol with h | h <;>
      · split_ifs <;> first
          | rfl
          | exact absurd h (by assumption)
          | (constructor <;> rfl)
  · intro hstab
    rw [interact_CD]
    split_ifs <;> rfl
  · intro hsks hap _ hne
    rw [interact_CES, if_neg (fun hand => hsks hand.1), if_neg hap,
      if_neg hsks, if_neg hne]
    exact ⟨_, rfl⟩

/-- Witness for C3: the spec's own example `s_K = 0.6, s_H = 0.5` is rejected
by both simulators; the stability violation `n = -1/2, g = 0, δ = 2/5`
(term `-1/10 ≤ 0`) is rejected by the Cobb-Douglas simulator but iterated by
the CES simulator. -/
theorem claim_C3_witness :
    (interact_CD 10 10 (3 / 5) (1 / 2) (1 / 3) (1 / 3) (1 / 50) (1 / 50) (1 / 20)
        = SimOutcome.paramError ∧
      interact_CES 10 10 (3 / 5) (1 / 2) (1 / 3) (1 / 3) (3 / 2) (1 / 50) (1 / 50) (1 / 20)
        = SimOutcome.paramError) ∧
    interact_CD 10 10 (1 / 5) (1 / 10) (1 / 3) (1 / 3) (-1 / 2) 0 (2 / 5)
        = SimOutcome.paramError ∧
    ∃ r, interact_CES 10 10 (1 / 5) (1 / 10) (1 / 3) (1 / 3) (3 / 2) (-1 / 2) 0 (2 / 5)
        = SimOutcome.simResult r :=
  ⟨(claim_C3_amended 10 10 (3 / 5) (1 / 2) (1 / 3) (1 / 3) (3 / 2) (1 / 50)
      (1 / 50) (1 / 20)).1 (Or.inl (by norm_num)),
    (claim_C3_amended 10 10 (1 / 5) (1 / 10) (1 / 3) (1 / 3) (3 / 2) (-1 / 2)
      0 (2 / 5)).2.1 (by norm_num),
    (claim_C3_amended 10 10 (1 / 5) (1 / 10) (1 / 3) (1 / 3) (3 / 2) (-1 / 2)
      0 (2 / 5)).2.2 (by norm_num) (by norm_num) (by norm_num) (by norm_num)⟩

/-- Claim C3 counterexample: the parameters `n = -1/2, g = 0, δ = 2/5` violate
the §3 invariant `n+g+δ+ng > 0` (the term equals `-1/10`), yet the CES
simulator does not fail fast: its stability guard tests only `n+g+δ = 0`
(here `-1/10 ≠ 0`), so it proceeds to iterate. -/
theorem claim_C3_counterexample :
    ((-1 : ℝ) / 2 + 0 + 2 / 5 + (-1 / 2) * 0 ≤ 0) ∧
    interact_CES 10 10 (1 / 5) (1 / 10) (1 / 3) (1 / 3) (3 / 2) (-1 / 2) 0 (2 / 5)
      ≠ SimOutcome.paramError := by
  refine ⟨by norm_num, ?_⟩
  rw [interact_CES]
  norm_num
  exact fun hcon => SimOutcome.noConfusion hcon

/-- Claim C9: for valid parameters, one application of the Cobb-Douglas
transition map to the sympy closed-form steady state `(k̃*, h̃*)` returns that
same state exactly (fixed point, in exact real arithmetic). -/
theorem claim_C9 (sk sh alpha phi n g delta : ℝ)
    (hsk : 0 < sk) (hsh : 0 < sh) (halpha : 0 < alpha) (hphi : 0 < phi)
    (hsum : alpha + phi < 1) (hE : 0 < n + g + delta + n * g) :
    kt_plus1_func (ktilstar sk sh alpha phi n g delta)
        (htilstar sk sh alpha phi n g delta) alpha n g sh sk delta phi
      = ktilstar sk sh alpha phi n g delta ∧
    ht_plus1_func (ktilstar sk sh alpha phi n g delta)
        (htilstar sk sh alpha phi n g delta) alpha n g sh sk delta phi
      = htilstar sk sh alpha phi n g delta := by
  have hE' : 0 < delta + g * n + g + n := by nlinarith [hE]
  have hc0 : phi + alpha - 1 ≠ 0 := by
    intro h0; nlinarith
  have hphi1 : phi - 1 ≠ 0 := by
    intro h0; nlinarith
  set E : ℝ := delta + g * n + g + n with hEdef
  set K : ℝ := ktilstar sk sh alpha phi n g delta with hKdef
  set H : ℝ := htilstar sk sh alpha phi n g delta with hHdef
  have hKpos : 0 < K := by
    rw [hKdef, ktilstar]
    exact mul_pos (Real.rpow_pos_of_pos hsh _)
      (Real.rpow_pos_of_pos (mul_pos (Real.rpow_pos_of_pos hsk _) hE') _)
  have hXpos : 0 < K ^ (-alpha) * E / sh :=
    div_pos (mul_pos (Real.rpow_pos_of_pos hKpos _) hE') hsh
  have hHX : H = (K ^ (-alpha) * E / sh) ^ (1 / (phi - 1)) := by
    rw [hHdef, htilstar, ← hKdef, ← hEdef]
  have hHpos : 0 < H := by
    rw [hHX]; exact Real.rpow_pos_of_pos hXpos _
  -- `K` raised to `φ+α-1` recovers the defining equation of the steady state.
  have hKc : K ^ (phi + alpha - 1) = sh ^ (-phi) * (sk ^ (phi - 1) * E) := by
    rw [hKdef, ktilstar, ← hEdef,
      Real.mul_rpow (Real.rpow_pos_of_pos hsh _).le
        (Real.rpow_pos_of_pos (mul_pos (Real.rpow_pos_of_pos hsk _) hE') _).le,
      ← Real.rpow_mul hsh.le, ← Real.rpow_mul
        (mul_pos (Real.rpow_pos_of_pos hsk _) hE').le,
      div_mul_cancel₀ _ hc0, one_div, inv_mul_cancel₀ hc0, Real.rpow_one]
  have hHc : H ^ (phi - 1) = K ^ (-alpha) * E / sh := by
    rw [hHX, ← Real.rpow_mul hXpos.le, one_div, inv_mul_cancel₀ hphi1,
      Real.rpow_one]
  -- `h̃* = (s_H/s_K)·k̃*`.
  have hHK : H = sh / sk * K := by
    have hsksh : (0 : ℝ) < sh / sk := div_pos hsh hsk
    have hbase : K ^ (-alpha) * E / sh = (sh / sk * K) ^ (phi - 1) := by
      have h1 : sh ^ (phi - 1) * sh ^ (-phi) = sh⁻¹ := by
        have he : phi - 1 + -phi = (-1 : ℝ) := by ring
        rw [← Real.rpow_add hsh, he, Real.rpow_neg hsh.le, Real.rpow_one]
      have hsk1 : sk ^ (phi - 1) ≠ 0 := (Real.rpow_pos_of_pos hsk _).ne'
      have hexp : phi - 1 = phi + alpha - 1 + -alpha := by ring
      rw [Real.mul_rpow hsksh.le hKpos.le, Real.div_rpow hsh.le hsk.le,
        hexp, Real.rpow_add hKpos, ← hexp, hKc]
      calc K ^ (-alpha) * E / sh
          = (sh ^ (phi - 1) * sh ^ (-phi)) * (sk ^ (phi - 1) / sk ^ (phi - 1))
              * E * K ^ (-alpha) := by
            rw [h1, div_self hsk1]; ring
        _ = sh ^ (phi - 1) / sk ^ (phi - 1) *
              (sh ^ (-phi) * (sk ^ (phi - 1) * E) * K ^ (-alpha)) := by ring
    rw [hHX, hbase, ← Real.rpow_mul (mul_pos hsksh hKpos).le,
      mul_one_div_cancel hphi1, Real.rpow_one]
  -- The two saving-rate equations of the steady state.
  have hHphi : H ^ phi = H * (K ^ (-alpha) * E / sh) := by
    have hsplit : H ^ phi = H ^ ((1 : ℝ) + (phi - 1)) := by norm_num
    rw [hsplit, Real.rpow_add hHpos, Real.rpow_one, hHc]
  have hKaK : K ^ alpha * K ^ (-alpha) = 1 := by
    rw [← Real.rpow_add hKpos]
    norm_num
  have keyH : sh * K ^ alpha * H ^ phi = E * H := by
    rw [hHphi]
    have hstep : sh * K ^ alpha * (H * (K ^ (-alpha) * E / sh))
        = K ^ alpha * K ^ (-alpha) * (sh / sh) * E * H := by ring
    rw [hstep, hKaK, div_self hsh.ne']
    ring
  have keyK : sk * K ^ alpha * H ^ phi = E * K := by
    rw [hHphi]
    have hstep : sk * K ^ alpha * (H * (K ^ (-alpha) * E / sh))
        = K ^ alpha * K ^ (-alpha) * (sk * H * E / sh) := by ring
    rw [hstep, hKaK, one_mul, hHK]
    field_simp
    ring
  have hEE : n + g + delta + n * g = E := by rw [hEdef]; ring
  constructor
  · rw [kt_plus1_func, hEE, keyK]
    ring
  · rw [ht_plus1_func, hEE, keyH]
    ring

/-- Witness for C9 at the standard calibration
(`α=φ=1/3, δ=0.05, g=n=0.02, s_K=0.1, s_H=0.15`). -/
theorem claim_C9_witness :
    kt_plus1_func (ktilstar (1 / 10) (3 / 20) (1 / 3) (1 / 3) (1 / 50) (1 / 50) (1 / 20))
        (htilstar (1 / 10) (3 / 20) (1 / 3) (1 / 3) (1 / 50) (1 / 50) (1 / 20))
        (1 / 3) (1 / 50) (1 / 50) (3 / 20) (1 / 10) (1 / 20) (1 / 3)
      = ktilstar (1 / 10) (3 / 20) (1 / 3) (1 / 3) (1 / 50) (1 / 50) (1 / 20) ∧
    ht_plus1_func (ktilstar (1 / 10) (3 / 20) (1 / 3) (1 / 3) (1 / 50) (1 / 50) (1 / 20))
        (htilstar (1 / 10) (3 / 20) (1 / 3) (1 / 3) (1 / 50) (1 / 50) (1 / 20))
        (1 / 3) (1 / 50) (1 / 50) (3 / 20) (1 / 10) (1 / 20) (1 / 3)
      = htilstar (1 / 10) (3 / 20) (1 / 3) (1 / 3) (1 / 50) (1 / 50) (1 / 20) :=
  claim_C9 (1 / 10) (3 / 20) (1 / 3) (1 / 3) (1 / 50) (1 / 50) (1 / 20)
    (by norm_num) (by norm_num) (by norm_num) (by norm_num) (by norm_num)
    (by norm_num)

end Solow
